import Mathlib

/-!
Verification of `bin/preprocess-epub.py`.

The script rewrites Hugo figure shortcodes in Markdown text using three
Python `re.sub` calls (in this order):

1. `pattern_with_caption` (line 28):
   backslash-brace backslash-brace `< figure` `\s+` `src="` group1=`[^"]+` `"`
   `[^>]*` `\s` `caption="` group2=`[^"]*` `"` `[^>]*` `>` brace brace,
   replaced by `![` group2 `](` src `)` where src is prefixed with
   `static` when it starts with `/` (function `replace_with_caption`).
2. `pattern_without_caption` (line 44): same opening through group1 `"`,
   then `[^>]*` `>` brace brace, replaced by `](` src `)` *without* a
   leading `!` (function `replace_without_caption`, line 52).
3. `pattern_no_src` (line 57): open braces `< figure` `[^>]*` `>` close
   braces, replaced by the empty string.

We embed the exact regexes as backtracking matchers over `List Char`:
greedy `*`/`+` over a character class try the longest consumption first
and backtrack on failure of the rest of the pattern, exactly Python's
semantics for these patterns (which contain no nested quantifiers).
`subWith` mirrors `re.sub`: scan left to right, replace each
non-overlapping leftmost match, continue after the match.
-/

namespace PreprocessEpub

/-- Python 3's `\s` class for `str` patterns: exactly the codepoints
CPython's `re` matches with `\s` (09-0D, 1C-1F, 20, 85, A0, 1680,
2000-200A, 2028, 2029, 202F, 205F, 3000). -/
def pySpace (c : Char) : Bool :=
  (0x09 ≤ c.toNat && c.toNat ≤ 0x0d) || c.toNat == 0x20 ||
  (0x1c ≤ c.toNat && c.toNat ≤ 0x1f) || c.toNat == 0x85 || c.toNat == 0xa0 ||
  c.toNat == 0x1680 || (0x2000 ≤ c.toNat && c.toNat ≤ 0x200a) ||
  c.toNat == 0x2028 || c.toNat == 0x2029 || c.toNat == 0x202f ||
  c.toNat == 0x205f || c.toNat == 0x3000

/-- The class `[^"]` (any char except a double quote). -/
def nq (c : Char) : Bool := c != '\x22'

/-- The class `[^>]` (any char except a greater-than sign). -/
def ngt (c : Char) : Bool := c != '>'

/-- Match one exact character, then continue with `k`. -/
def litM (a : Char) (k : List Char → Option α) : List Char → Option α
  | [] => none
  | b :: s => if b = a then k s else none

/-- Match an exact sequence of characters, then continue with `k`. -/
def litsM : List Char → (List Char → Option α) → List Char → Option α
  | [], k => k
  | a :: w, k => litM a (litsM w k)

/-- Match one character of class `p`, then continue with `k`. -/
def clsM (p : Char → Bool) (k : List Char → Option α) : List Char → Option α
  | [] => none
  | a :: s => if p a then k s else none

/-- Greedy `p*` with backtracking: consume as many `p`-characters as
possible, then run `k`; on failure give back one character at a time. -/
def starB (p : Char → Bool) (k : List Char → Option α) : List Char → Option α
  | [] => k []
  | a :: s =>
    if p a then
      match starB p k s with
      | some r => some r
      | none => k (a :: s)
    else k (a :: s)

/-- Greedy `p+` with backtracking (at least one `p`-character). -/
def plusB (p : Char → Bool) (k : List Char → Option α) : List Char → Option α :=
  clsM p (starB p k)

/-- Greedy capturing `(p*)`: like `starB` but the continuation also
receives the consumed characters (the capture group's content). -/
def capStar (p : Char → Bool) (k : List Char → List Char → Option α) :
    List Char → Option α
  | [] => k [] []
  | a :: s =>
    if p a then
      match capStar p (fun cap rest => k (a :: cap) rest) s with
      | some r => some r
      | none => k [] (a :: s)
    else k [] (a :: s)

/-- Greedy capturing `(p+)`: at least one character, greedy, capturing. -/
def capPlus (p : Char → Bool) (k : List Char → List Char → Option α) :
    List Char → Option α
  | [] => none
  | a :: s =>
    if p a then capStar p (fun cap rest => k (a :: cap) rest) s else none

/-- The literal opening of all three patterns: two braces, `< figure`. -/
def pre10 : List Char :=
  ['\x7b', '\x7b', '<', ' ', 'f', 'i', 'g', 'u', 'r', 'e']

/-- The literal `src="`. -/
def src5 : List Char := ['s', 'r', 'c', '=', '\x22']

/-- The literal `caption=` (without the closing quote). -/
def cap8 : List Char := ['c', 'a', 'p', 't', 'i', 'o', 'n', '=']

/-- The literal `caption="`. -/
def cap9 : List Char := cap8 ++ ['\x22']

/-- The literal closing `>` brace brace. -/
def close3 : List Char := ['>', '\x7d', '\x7d']

/-- Result of a capturing match: the captured groups paired with the
unconsumed remainder of the input. -/
abbrev MRes2 := (List Char × List Char) × List Char

/-- Tail of `pattern_with_caption` after the caption group: `"` `[^>]*`
`>` brace brace; returns groups `(p1, p2)` and the rest. -/
def mwcEnd (p1 p2 : List Char) : List Char → Option MRes2 :=
  litM '\x22' (starB ngt (litsM close3 (fun rest => some ((p1, p2), rest))))

/-- The caption group and what follows: `([^"]*)` then `mwcEnd`. -/
def mwcCapGroup (p1 : List Char) : List Char → Option MRes2 :=
  capStar nq (fun p2 => mwcEnd p1 p2)

/-- `\s` `caption="` then the caption group: the target of the `[^>]*`
backtracking search between the two attributes. -/
def mwcK3 (p1 : List Char) : List Char → Option MRes2 :=
  clsM pySpace (litsM cap8 (litM '\x22' (mwcCapGroup p1)))

/-- After the src group: `"` `[^>]*` then `mwcK3`. -/
def mwcAfterSrc (p1 : List Char) : List Char → Option MRes2 :=
  litM '\x22' (starB ngt (mwcK3 p1))

/-- `pattern_with_caption` (line 28), embedded. -/
def matchWithCaption : List Char → Option MRes2 :=
  litsM pre10 (plusB pySpace (litsM src5 (capPlus nq mwcAfterSrc)))

/-- Tail of `pattern_without_caption` after the src group: `"` `[^>]*`
`>` brace brace. -/
def mwoAfterSrc (p1 : List Char) : List Char → Option (List Char × List Char) :=
  litM '\x22' (starB ngt (litsM close3 (fun rest => some (p1, rest))))

/-- `pattern_without_caption` (line 44), embedded. -/
def matchWithoutCaption : List Char → Option (List Char × List Char) :=
  litsM pre10 (plusB pySpace (litsM src5 (capPlus nq mwoAfterSrc)))

/-- `pattern_no_src` (line 57), embedded. -/
def matchNoSrc : List Char → Option (Unit × List Char) :=
  litsM pre10 (starB ngt (litsM close3 (fun rest => some ((), rest))))

/-- Lines 35-36 / 49-50: prefix `static` when the src starts with `/`. -/
def rewriteSrc (src : List Char) : List Char :=
  if src.head? = some '/' then ['s', 't', 'a', 't', 'i', 'c'] ++ src else src

/-- `replace_with_caption` (line 30): produce `![` caption `](` src `)`.
The caption is inserted verbatim (the source performs no escaping). -/
def replace_with_caption (src caption : List Char) : List Char :=
  ['!', '['] ++ caption ++ [']', '('] ++ rewriteSrc src ++ [')']

/-- `replace_without_caption` (line 46): produce `](` src `)` with no
leading `!` (exactly as the source's f-string on line 52). -/
def replace_without_caption (src : List Char) : List Char :=
  ['[', ']', '('] ++ rewriteSrc src ++ [')']

/-- `re.sub` body with explicit fuel (structural recursion so that the
kernel can evaluate it): scan left to right, at each position try the
(anchored) match; on success emit the replacement and continue after
the match, otherwise keep the character and move one position right.
Each step shortens the text, so fuel = initial length always suffices;
the fuel-exhausted branch is unreachable from `subWith`. -/
def subWithF (m : List Char → Option (ρ × List Char)) (f : ρ → List Char) :
    Nat → List Char → List Char
  | _, [] => []
  | 0, a :: s => a :: s
  | fuel + 1, a :: s =>
    match m (a :: s) with
    | some (r, rest) =>
      if rest.length ≤ s.length then f r ++ subWithF m f fuel rest
      else a :: subWithF m f fuel s
    | none => a :: subWithF m f fuel s

/-- `re.sub`, as used on lines 41, 54 and 58. -/
def subWith (m : List Char → Option (ρ × List Char)) (f : ρ → List Char)
    (s : List Char) : List Char :=
  subWithF m f s.length s

/-- `convert_figure_shortcode` (line 15): the three substitutions in
source order (`pattern_with_caption`, then `pattern_without_caption`,
then `pattern_no_src`, each applied to the previous result). -/
def convert_figure_shortcode (text : List Char) : List Char :=
  subWith matchNoSrc (fun _ => [])
    (subWith matchWithoutCaption replace_without_caption
      (subWith matchWithCaption (fun g => replace_with_caption g.1 g.2) text))

/-- String-level wrapper of `convert_figure_shortcode`. -/
def convertStr (s : String) : String :=
  String.mk (convert_figure_shortcode s.data)

/-- A figure shortcode with a src and a caption attribute, in that
order, single spaces between tokens: open braces, `< figure src="` p `"
caption="` c `" >`, close braces. -/
def figWC (p c : List Char) : List Char :=
  pre10 ++ ' ' :: (src5 ++ (p ++ '\x22' :: ' ' ::
    (cap8 ++ ('\x22' :: (c ++ '\x22' :: ' ' :: close3)))))

/-- A figure shortcode with arbitrary body `b` between `figure` and the
closing `>` braces (no src attribute intended). -/
def figNoSrc (b : List Char) : List Char :=
  pre10 ++ (b ++ close3)

/-- A figure shortcode whose src attribute is present but empty:
open braces, `< figure src="" caption="` c `" >`, close braces. -/
def figSrcEmpty (c : List Char) : List Char :=
  pre10 ++ ' ' :: (src5 ++ ('\x22' :: ' ' ::
    (cap8 ++ ('\x22' :: (c ++ '\x22' :: ' ' :: close3)))))

/-- A figure shortcode with only a caption attribute (no src):
open braces, `< figure caption="` c `" >`, close braces. -/
def figNoSrcCap (c : List Char) : List Char :=
  pre10 ++ ' ' :: (cap8 ++ ('\x22' :: (c ++ '\x22' :: ' ' :: close3)))

/-- A figure shortcode with the same attributes as `figWC` but written
caption first: open braces, `< figure caption="` c `" src="` p `" >`,
close braces. -/
def figCapFirst (c p : List Char) : List Char :=
  pre10 ++ ' ' :: (cap8 ++ ('\x22' :: (c ++ '\x22' :: ' ' ::
    (src5 ++ (p ++ '\x22' :: ' ' :: close3)))))

/-- A pre-existing Markdown image reference `![` alt `](` path `)`. -/
def imageMd (alt path : List Char) : List Char :=
  ['!', '['] ++ alt ++ [']', '('] ++ path ++ [')']

/-! ## CLI driver model (`main`, lines 83-111)

`main` inspects `sys.argv` and the filesystem.  We model the filesystem
tests `os.path.isfile` / `os.path.isdir` as boolean oracles and record
which control path `main` takes. -/

/-- The observable outcome of `main`'s dispatch. -/
inductive MainResult where
  /-- fewer than 2 argv entries: usage text printed, `sys.exit(1)`. -/
  | usageError : MainResult
  /-- single-file mode: `process_file input output` is invoked. -/
  | singleFile (input output : String) : MainResult
  /-- directory mode with an explicit output directory. -/
  | dirMode (inputDir outputDir : String) : MainResult
  /-- directory mode but `sys.argv[2]` is absent (line 98): an uncaught
  `IndexError` terminates the interpreter (exit status 1, traceback on
  stderr, no usage message). -/
  | uncaughtIndexError : MainResult
  /-- input path neither file nor directory: error naming the path,
  `sys.exit(1)`. -/
  | invalidPath (p : String) : MainResult
  deriving DecidableEq, Repr

/-- `main` (line 83): argument count check, then file/dir dispatch. -/
def pyMain (argv : List String) (isFile isDir : String → Bool) : MainResult :=
  match argv with
  | _prog :: input :: rest =>
    if isFile input then
      .singleFile input (match rest with | out :: _ => out | [] => input)
    else if isDir input then
      match rest with
      | out :: _ => .dirMode input out
      | [] => .uncaughtIndexError
    else .invalidPath input
  | _ => .usageError

/-- Whether the usage message of lines 86-87 is printed. -/
def printsUsage : MainResult → Bool
  | .usageError => true
  | _ => false

/-- Exit status of the interpreter when the outcome terminates it:
`sys.exit(1)` and an uncaught exception both exit with status 1. -/
def exitStatus : MainResult → Option Nat
  | .usageError => some 1
  | .uncaughtIndexError => some 1
  | .invalidPath _ => some 1
  | _ => none

/-! ## File driver model (`process_file`, lines 62-81) -/

/-- Errors surfaced by the modelled filesystem calls. -/
inductive PyErr where
  /-- `FileNotFoundError`, as raised by `os.makedirs('')`. -/
  | fileNotFound : PyErr
  deriving DecidableEq, Repr

/-- `os.path.dirname` (POSIX): everything up to and including the last
`/`, then trailing slashes stripped unless the head is all slashes;
paths with no `/` give the empty string. -/
def dirname (p : List Char) : List Char :=
  let tailR := p.reverse.dropWhile (fun a => a != '/')
  let head := tailR.reverse
  if head ≠ [] ∧ head.any (fun a => a != '/') then
    (head.reverse.dropWhile (fun a => a == '/')).reverse
  else head

/-- `os.makedirs(name, exist_ok=True)`: succeeds for any non-empty
name, but raises `FileNotFoundError` when `name` is the empty string
(CPython behavior; `exist_ok` does not save the empty path). -/
def makedirs (name : List Char) : Except PyErr Unit :=
  if name = [] then .error .fileNotFound else .ok ()

/-- `process_file` (line 62): read `content`, convert it, create the
output's parent directory, write.  The model returns the written
content, or the first filesystem error. -/
def process_file (content output_path : List Char) : Except PyErr (List Char) :=
  let converted := convert_figure_shortcode content
  match makedirs (dirname output_path) with
  | .error e => .error e
  | .ok _ => .ok converted

/-! ## Combinator lemmas -/

theorem litM_nil (a : Char) (k : List Char → Option α) : litM a k [] = none := rfl

theorem litM_cons (a b : Char) (k : List Char → Option α) (s : List Char) :
    litM a k (b :: s) = if b = a then k s else none := rfl

theorem litsM_append (w : List Char) (k : List Char → Option α) (s : List Char) :
    litsM w k (w ++ s) = k s := by
  induction w with
  | nil => rfl
  | cons a w ih => simp [litsM, litM_cons, ih]

theorem litsM_none_of_mem {ch : Char} {w : List Char} (hch : ch ∈ w)
    (k : List Char → Option α) {s : List Char} (hs : ch ∉ s) :
    litsM w k s = none := by
  induction w generalizing s with
  | nil => cases hch
  | cons a w ih =>
    cases s with
    | nil => rfl
    | cons b s =>
      simp only [litsM, litM_cons]
      rcases List.mem_cons.mp hch with h | h
      · subst h
        have hb : b ≠ ch := fun hb => hs (hb ▸ List.mem_cons_self b s)
        simp [hb]
      · by_cases hba : b = a
        · simp [hba, ih h fun hm => hs (List.mem_cons_of_mem b hm)]
        · simp [hba]

theorem litsM_none_of_not_pref {w s : List Char}
    (h : w.isPrefixOf s = false) (k : List Char → Option α) :
    litsM w k s = none := by
  induction w generalizing s with
  | nil => simp [List.isPrefixOf] at h
  | cons a w ih =>
    cases s with
    | nil => rfl
    | cons b s =>
      simp only [litsM, litM_cons]
      by_cases hba : b = a
      · have hw : w.isPrefixOf s = false := by
          subst hba
          simpa [List.isPrefixOf] using h
        simp [hba, ih hw]
      · simp [hba]

theorem clsM_nil (p : Char → Bool) (k : List Char → Option α) : clsM p k [] = none := rfl

theorem clsM_pos {p : Char → Bool} {a : Char} (h : p a = true)
    (k : List Char → Option α) (s : List Char) : clsM p k (a :: s) = k s := by
  simp [clsM, h]

theorem clsM_neg {p : Char → Bool} {a : Char} (h : p a = false)
    (k : List Char → Option α) (s : List Char) : clsM p k (a :: s) = none := by
  simp [clsM, h]

theorem starB_nil (p : Char → Bool) (k : List Char → Option α) : starB p k [] = k [] := rfl

theorem starB_neg {p : Char → Bool} {a : Char} (h : p a = false)
    (k : List Char → Option α) (s : List Char) : starB p k (a :: s) = k (a :: s) := by
  simp [starB, h]

theorem starB_pos_some {p : Char → Bool} {a : Char} (h : p a = true)
    {k : List Char → Option α} {s : List Char} {r : α}
    (hs : starB p k s = some r) : starB p k (a :: s) = some r := by
  simp [starB, h, hs]

theorem starB_maximal {p : Char → Bool} {xs : List Char} {y : Char}
    (hxs : ∀ x ∈ xs, p x = true) (hy : p y = false)
    {k : List Char → Option α} {ys : List Char} {r : α}
    (hk : k (y :: ys) = some r) :
    starB p k (xs ++ y :: ys) = some r := by
  induction xs with
  | nil => simpa [starB_neg hy] using hk
  | cons x xs ih =>
    have hx : p x = true := hxs x (List.mem_cons_self x xs)
    exact starB_pos_some hx (ih fun z hz => hxs z (List.mem_cons_of_mem x hz))

theorem suffix_length_le {t s : List Char} (h : t <:+ s) : t.length ≤ s.length := by
  rcases h with ⟨u, rfl⟩
  simp

theorem not_cons_suffix_self {a : Char} {s : List Char} : ¬ (a :: s <:+ s) := by
  intro h
  have := suffix_length_le h
  simp at this

theorem starB_eq_self {p : Char → Bool} {k : List Char → Option α} {s : List Char}
    (h : ∀ t, t <:+ s → t ≠ s → k t = none) : starB p k s = k s := by
  induction s with
  | nil => rfl
  | cons a s ih =>
    by_cases hp : p a
    · have hsub : starB p k s = k s := by
        refine ih fun t ht hne => h t (ht.trans (List.suffix_cons a s)) ?_
        rintro rfl
        exact not_cons_suffix_self ht
      have hks : k s = none := by
        refine h s (List.suffix_cons a s) ?_
        intro he
        have : (a :: s).length = s.length := by conv_lhs => rw [← he]
        simp at this
      simp [starB, hp, hsub, hks]
    · simp [starB, hp]

theorem starB_none {p : Char → Bool} {k : List Char → Option α} {s : List Char}
    (h : ∀ t, t <:+ s → k t = none) : starB p k s = none := by
  induction s with
  | nil => exact h [] List.nil_suffix
  | cons a s ih =>
    have hs : starB p k s = none := ih fun t ht => h t (ht.trans (List.suffix_cons a s))
    by_cases hp : p a
    · simp [starB, hp, hs, h (a :: s) (List.suffix_refl _)]
    · simp [starB, hp, h (a :: s) (List.suffix_refl _)]

theorem capStar_maximal {p : Char → Bool} {xs : List Char} {y : Char}
    (hxs : ∀ x ∈ xs, p x = true) (hy : p y = false)
    {k : List Char → List Char → Option α} {ys : List Char} {r : α}
    (hk : k xs (y :: ys) = some r) :
    capStar p k (xs ++ y :: ys) = some r := by
  induction xs generalizing k with
  | nil => simpa [capStar, hy] using hk
  | cons x xs ih =>
    have hx : p x = true := hxs x (List.mem_cons_self x xs)
    have hrec : capStar p (fun cap rest => k (x :: cap) rest)
        (xs ++ y :: ys) = some r :=
      ih (fun z hz => hxs z (List.mem_cons_of_mem x hz)) hk
    simp [capStar, hx, hrec]

theorem capStar_none {p : Char → Bool} {k : List Char → List Char → Option α}
    {s : List Char} (h : ∀ cap t, t <:+ s → k cap t = none) :
    capStar p k s = none := by
  induction s generalizing k with
  | nil => exact h [] [] List.nil_suffix
  | cons a s ih =>
    have hs : capStar p (fun cap rest => k (a :: cap) rest) s = none :=
      ih fun cap t ht => h (a :: cap) t (ht.trans (List.suffix_cons a s))
    by_cases hp : p a
    · simp [capStar, hp, hs, h [] (a :: s) (List.suffix_refl _)]
    · simp [capStar, hp, h [] (a :: s) (List.suffix_refl _)]

theorem capPlus_maximal {p : Char → Bool} {xs : List Char} {y : Char}
    (hne : xs ≠ []) (hxs : ∀ x ∈ xs, p x = true) (hy : p y = false)
    {k : List Char → List Char → Option α} {ys : List Char} {r : α}
    (hk : k xs (y :: ys) = some r) :
    capPlus p k (xs ++ y :: ys) = some r := by
  cases xs with
  | nil => cases hne rfl
  | cons x xs =>
    have hx : p x = true := hxs x (List.mem_cons_self x xs)
    have hrec : capStar p (fun cap rest => k (x :: cap) rest)
        (xs ++ y :: ys) = some r :=
      capStar_maximal (fun z hz => hxs z (List.mem_cons_of_mem x hz)) hy hk
    simp [capPlus, hx, hrec]

theorem capPlus_neg {p : Char → Bool} {a : Char} (h : p a = false)
    (k : List Char → List Char → Option α) (s : List Char) :
    capPlus p k (a :: s) = none := by
  simp [capPlus, h]

theorem plusB_cons (p : Char → Bool) (k : List Char → Option α) (a : Char)
    (s : List Char) : plusB p k (a :: s) = if p a then starB p k s else none := by
  simp [plusB, clsM]

/-! ## Suffix helpers -/

theorem suffix_cons_cases {t : List Char} {a : Char} {s : List Char}
    (h : t <:+ a :: s) : t = a :: s ∨ t <:+ s := by
  rcases h with ⟨u, hu⟩
  cases u with
  | nil => exact Or.inl hu
  | cons b u =>
    right
    refine ⟨u, ?_⟩
    simpa using congrArg List.tail hu

theorem mem_of_suffix {t s : List Char} (h : t <:+ s) {x : Char} (hx : x ∈ t) :
    x ∈ s := by
  rcases h with ⟨u, rfl⟩
  exact List.mem_append_right u hx

theorem suffix_append_cases {t xs ys : List Char} (h : t <:+ xs ++ ys) :
    t <:+ ys ∨ ∃ w, w <:+ xs ∧ w ≠ [] ∧ t = w ++ ys := by
  induction xs with
  | nil => exact Or.inl (by simpa using h)
  | cons a xs ih =>
    rcases suffix_cons_cases (by simpa using h) with he | ht
    · exact Or.inr ⟨a :: xs, List.suffix_refl _, by simp, he⟩
    · rcases ih ht with h1 | ⟨w, hw, hwne, rfl⟩
      · exact Or.inl h1
      · exact Or.inr ⟨w, hw.trans (List.suffix_cons a xs), hwne, rfl⟩

/-! ## `subWith` equations -/

theorem subWithF_nil (m : List Char → Option (ρ × List Char))
    (f : ρ → List Char) (fuel : Nat) : subWithF m f fuel [] = [] := by
  cases fuel <;> rfl

theorem subWithF_stable {m : List Char → Option (ρ × List Char)}
    {f : ρ → List Char} :
    ∀ (f1 f2 : Nat) (s : List Char), s.length ≤ f1 → s.length ≤ f2 →
      subWithF m f f1 s = subWithF m f f2 s := by
  intro f1
  induction f1 with
  | zero =>
    intro f2 s h1 _h2
    have hs : s = [] := List.eq_nil_of_length_eq_zero (Nat.le_zero.mp h1)
    subst hs
    rw [subWithF_nil, subWithF_nil]
  | succ f1 ih =>
    intro f2 s h1 h2
    cases s with
    | nil => rw [subWithF_nil, subWithF_nil]
    | cons a s' =>
      cases f2 with
      | zero => simp at h2
      | succ f2 =>
        have h1' : s'.length ≤ f1 := by simp at h1; omega
        have h2' : s'.length ≤ f2 := by simp at h2; omega
        cases hm : m (a :: s') with
        | none =>
          simp only [subWithF, hm]
          rw [ih f2 s' h1' h2']
        | some rp =>
          obtain ⟨r, rest⟩ := rp
          simp only [subWithF, hm]
          by_cases hr : rest.length ≤ s'.length
          · rw [if_pos hr, if_pos hr]
            rw [ih f2 rest (le_trans hr h1') (le_trans hr h2')]
          · rw [if_neg hr, if_neg hr]
            rw [ih f2 s' h1' h2']

theorem subWith_nil (m : List Char → Option (ρ × List Char)) (f : ρ → List Char) :
    subWith m f [] = [] := rfl

theorem subWith_cons_some {m : List Char → Option (ρ × List Char)}
    {f : ρ → List Char} {a : Char} {s : List Char} {r : ρ} {rest : List Char}
    (h : m (a :: s) = some (r, rest)) (hlen : rest.length ≤ s.length) :
    subWith m f (a :: s) = f r ++ subWith m f rest := by
  unfold subWith
  rw [show (a :: s).length = s.length + 1 from rfl]
  simp only [subWithF, h, if_pos hlen]
  rw [subWithF_stable s.length rest.length rest hlen (le_refl _)]

theorem subWith_cons_none {m : List Char → Option (ρ × List Char)}
    {f : ρ → List Char} {a : Char} {s : List Char}
    (h : m (a :: s) = none) :
    subWith m f (a :: s) = a :: subWith m f s := by
  unfold subWith
  rw [show (a :: s).length = s.length + 1 from rfl]
  simp only [subWithF, h]

theorem subWith_full {m : List Char → Option (ρ × List Char)}
    {f : ρ → List Char} {a : Char} {s : List Char} {r : ρ}
    (h : m (a :: s) = some (r, [])) :
    subWith m f (a :: s) = f r := by
  rw [subWith_cons_some h (by simp), subWith_nil, List.append_nil]

theorem subWith_id {m : List Char → Option (ρ × List Char)} {f : ρ → List Char}
    {s : List Char} (h : ∀ t, t <:+ s → m t = none) :
    subWith m f s = s := by
  induction s with
  | nil => exact subWith_nil m f
  | cons a s ih =>
    rw [subWith_cons_none (h (a :: s) (List.suffix_refl _))]
    rw [ih fun t ht => h t (ht.trans (List.suffix_cons a s))]

/-! ## Where the three patterns cannot match

All three patterns open with a literal brace, require a second brace,
and (for the two conversion patterns) a literal `src="` containing a
double quote; so they fail on any input that lacks those characters in
the corresponding places. -/

theorem mwc_nil : matchWithCaption [] = none := rfl

theorem mwo_nil : matchWithoutCaption [] = none := rfl

theorem mns_nil : matchNoSrc [] = none := rfl

theorem mwc_cons_ne {a : Char} (h : a ≠ '\x7b') (s : List Char) :
    matchWithCaption (a :: s) = none := by
  simp [matchWithCaption, pre10, litsM, litM_cons, h]

theorem mwo_cons_ne {a : Char} (h : a ≠ '\x7b') (s : List Char) :
    matchWithoutCaption (a :: s) = none := by
  simp [matchWithoutCaption, pre10, litsM, litM_cons, h]

theorem mns_cons_ne {a : Char} (h : a ≠ '\x7b') (s : List Char) :
    matchNoSrc (a :: s) = none := by
  simp [matchNoSrc, pre10, litsM, litM_cons, h]

theorem litsM_cases (w : List Char) (k : List Char → Option α) (s : List Char) :
    litsM w k s = none ∨ ∃ t, s = w ++ t ∧ litsM w k s = k t := by
  induction w generalizing s with
  | nil => exact Or.inr ⟨s, rfl, rfl⟩
  | cons a w ih =>
    cases s with
    | nil => exact Or.inl rfl
    | cons b s =>
      by_cases hba : b = a
      · subst hba
        rcases ih s with h | ⟨t, rfl, ht⟩
        · exact Or.inl (by simp [litsM, litM_cons, h])
        · exact Or.inr ⟨t, by simp, by simp [litsM, litM_cons, ht]⟩
      · exact Or.inl (by simp [litsM, litM_cons, hba])

theorem plusB_src_none (G : List Char → Option α) {t : List Char}
    (hqt : '\x22' ∉ t) : plusB pySpace (litsM src5 G) t = none := by
  cases t with
  | nil => simp [plusB, clsM]
  | cons b t' =>
    rw [plusB_cons]
    by_cases hb : pySpace b
    · rw [if_pos hb]
      refine starB_none fun u hu => ?_
      refine litsM_none_of_mem (show ('\x22' : Char) ∈ src5 by simp [src5]) _ ?_
      intro hm
      exact hqt (List.mem_cons_of_mem b (mem_of_suffix hu hm))
    · rw [if_neg hb]

theorem mwc_none_of_no_quote {s : List Char} (h : '\x22' ∉ s) :
    matchWithCaption s = none := by
  unfold matchWithCaption
  rcases litsM_cases pre10 _ s with hn | ⟨t, rfl, ht⟩
  · exact hn
  · rw [ht]
    exact plusB_src_none _ fun hm => h (List.mem_append_right pre10 hm)

theorem mwo_none_of_no_quote {s : List Char} (h : '\x22' ∉ s) :
    matchWithoutCaption s = none := by
  unfold matchWithoutCaption
  rcases litsM_cases pre10 _ s with hn | ⟨t, rfl, ht⟩
  · exact hn
  · rw [ht]
    exact plusB_src_none _ fun hm => h (List.mem_append_right pre10 hm)

theorem mwc_none_of_no_brace {s : List Char} (h : '\x7b' ∉ s) :
    matchWithCaption s = none := by
  unfold matchWithCaption
  exact litsM_none_of_mem (by simp [pre10]) _ h

theorem mwo_none_of_no_brace {s : List Char} (h : '\x7b' ∉ s) :
    matchWithoutCaption s = none := by
  unfold matchWithoutCaption
  exact litsM_none_of_mem (by simp [pre10]) _ h

theorem mns_none_of_no_brace {s : List Char} (h : '\x7b' ∉ s) :
    matchNoSrc s = none := by
  unfold matchNoSrc
  exact litsM_none_of_mem (by simp [pre10]) _ h

/-- A text containing no opening brace is left unchanged by the whole
conversion: none of the three patterns can match anywhere in it. -/
theorem convert_braceFree {s : List Char} (h : '\x7b' ∉ s) :
    convert_figure_shortcode s = s := by
  unfold convert_figure_shortcode
  rw [subWith_id fun t ht => mwc_none_of_no_brace fun hm => h (mem_of_suffix ht hm)]
  rw [subWith_id fun t ht => mwo_none_of_no_brace fun hm => h (mem_of_suffix ht hm)]
  rw [subWith_id fun t ht => mns_none_of_no_brace fun hm => h (mem_of_suffix ht hm)]

/-- If the braces of `s` are exactly its two leading characters, a
matcher that needs a leading brace can only fire at the two leading
positions; if it fails there too, `subWith` is the identity. -/
theorem subWith_id_braces {m : List Char → Option (ρ × List Char)}
    {f : ρ → List Char}
    (hcons : ∀ (x : Char) (t : List Char), x ≠ '\x7b' → m (x :: t) = none)
    (hnil : m [] = none) {w : List Char} (hw : '\x7b' ∉ w)
    (h1 : m ('\x7b' :: '\x7b' :: w) = none) (h2 : m ('\x7b' :: w) = none) :
    subWith m f ('\x7b' :: '\x7b' :: w) = '\x7b' :: '\x7b' :: w := by
  refine subWith_id fun t ht => ?_
  rcases suffix_cons_cases ht with rfl | ht1
  · exact h1
  rcases suffix_cons_cases ht1 with rfl | ht2
  · exact h2
  cases t with
  | nil => exact hnil
  | cons x t' =>
    refine hcons x t' fun hx => ?_
    exact hw (hx ▸ mem_of_suffix ht2 (List.mem_cons_self x t'))

/-! ## Matching a well-formed `src` + `caption` shortcode

The hard part is the `[^>]*` between the two attributes: greedy
backtracking probes every suffix of the text after the src's closing
quote, longest first; we show every probe except the outermost fails,
so the regex finds the caption right where it stands. -/

theorem litsM_append_general (w1 w2 : List Char) (k : List Char → Option α) :
    litsM (w1 ++ w2) k = litsM w1 (litsM w2 k) := by
  induction w1 with
  | nil => rfl
  | cons a w1 ih => simp [litsM, ih]

theorem litsM_split_quote {L d : List Char} (hL : '\x22' ∉ L) (hd : '\x22' ∉ d)
    (k : List Char → Option α) (rest : List Char) :
    litsM (L ++ ['\x22']) k (d ++ '\x22' :: rest) =
      if d = L then k rest else none := by
  induction L generalizing d with
  | nil =>
    cases d with
    | nil => simp [litsM, litM_cons]
    | cons x d' =>
      have hx : x ≠ '\x22' := fun h => hd (h ▸ List.mem_cons_self x d')
      simp [litsM, litM_cons, hx]
  | cons a L' ih =>
    cases d with
    | nil =>
      have ha : '\x22' ≠ a := fun h => hL (by rw [h]; exact List.mem_cons_self a L')
      simp [litsM, litM_cons, ha]
    | cons x d' =>
      have hd' : '\x22' ∉ d' := fun h => hd (List.mem_cons_of_mem x h)
      have hL' : '\x22' ∉ L' := fun h => hL (List.mem_cons_of_mem a h)
      by_cases hxa : x = a
      · subst hxa
        simp [litsM, litM_cons, ih hL' hd']
      · simp [litsM, litM_cons, hxa]

theorem cap8_not_space : ∀ x ∈ cap8, pySpace x = false := by decide

theorem mwcK3_cons_not_space {p1 : List Char} {x : Char}
    (h : pySpace x = false) (t : List Char) : mwcK3 p1 (x :: t) = none :=
  clsM_neg h _ t

theorem mwcEnd_cons_ne {p1 p2 : List Char} {x : Char} (h : x ≠ '\x22')
    (t : List Char) : mwcEnd p1 p2 (x :: t) = none := by
  simp [mwcEnd, litM_cons, h]

theorem mwcEnd_sp_close_none (p1 p2 : List Char) :
    ∀ t, t <:+ ' ' :: close3 → mwcEnd p1 p2 t = none := by
  intro t ht
  rcases suffix_cons_cases ht with rfl | ht
  · exact mwcEnd_cons_ne (by decide) _
  rcases suffix_cons_cases (by simpa [close3] using ht) with rfl | ht
  · exact mwcEnd_cons_ne (by decide) _
  rcases suffix_cons_cases ht with rfl | ht
  · exact mwcEnd_cons_ne (by decide) _
  rcases suffix_cons_cases ht with rfl | ht
  · exact mwcEnd_cons_ne (by decide) _
  rcases List.suffix_nil.mp ht with rfl
  rfl

/-- Every proper suffix of the text between the src's closing quote and
the end of the shortcode fails `mwcK3`: the space-then-`caption="`
search succeeds only at the outermost position. -/
theorem mwcK3_proper_none {p1 c : List Char} (hcq : '\x22' ∉ c) :
    ∀ t, t <:+ ' ' :: (cap8 ++ ('\x22' :: (c ++ '\x22' :: ' ' :: close3))) →
      t ≠ ' ' :: (cap8 ++ ('\x22' :: (c ++ '\x22' :: ' ' :: close3))) →
      mwcK3 p1 t = none := by
  intro t ht hne
  rcases suffix_cons_cases ht with rfl | ht1
  · exact absurd rfl hne
  rcases suffix_append_cases ht1 with ht2 | ⟨w, hw, hwne, rfl⟩
  · -- suffix of the quote, caption text and closing part
    rcases suffix_cons_cases ht2 with rfl | ht3
    · exact mwcK3_cons_not_space (by decide) _
    rcases suffix_append_cases ht3 with ht4 | ⟨w, hw, hwne, rfl⟩
    · -- suffix of the closing `" >` braces
      rcases suffix_cons_cases ht4 with rfl | ht5
      · exact mwcK3_cons_not_space (by decide) _
      rcases suffix_cons_cases ht5 with rfl | ht6
      · -- the probe lands on the space before the closing `>`:
        -- `caption="` cannot match against `>` braces
        unfold mwcK3
        rw [clsM_pos (by decide)]
        rw [show close3 = '>' :: ['\x7d', '\x7d'] from rfl]
        simp [litsM, litM_cons, cap8]
      rcases suffix_cons_cases (by simpa [close3] using ht6) with rfl | ht7
      · exact mwcK3_cons_not_space (by decide) _
      rcases suffix_cons_cases ht7 with rfl | ht8
      · exact mwcK3_cons_not_space (by decide) _
      rcases suffix_cons_cases ht8 with rfl | ht9
      · exact mwcK3_cons_not_space (by decide) _
      rcases List.suffix_nil.mp ht9 with rfl
      rfl
    · -- the probe lands inside the caption text
      cases w with
      | nil => exact absurd rfl hwne
      | cons x w' =>
        have hxc : x ∈ c := mem_of_suffix hw (List.mem_cons_self x w')
        by_cases hsp : pySpace x
        · -- a space inside the caption: `caption="` must then match
          -- caption characters followed by the real closing quote
          have hw' : '\x22' ∉ w' :=
            fun h => hcq (mem_of_suffix hw (List.mem_cons_of_mem x h))
          unfold mwcK3
          rw [List.cons_append, clsM_pos hsp]
          rw [show litsM cap8 (litM '\x22' (mwcCapGroup p1)) =
                litsM (cap8 ++ ['\x22']) (mwcCapGroup p1) from
              (litsM_append_general cap8 ['\x22'] (mwcCapGroup p1)).symm]
          rw [litsM_split_quote (by decide) hw' (mwcCapGroup p1) (' ' :: close3)]
          by_cases hwc : w' = cap8
          · rw [if_pos hwc]
            exact capStar_none fun cap t ht => mwcEnd_sp_close_none p1 cap t ht
          · rw [if_neg hwc]
        · exact mwcK3_cons_not_space (by simpa using hsp) _
  · -- the probe lands inside the literal `caption=`
    cases w with
    | nil => exact absurd rfl hwne
    | cons x w' =>
      have hx : x ∈ cap8 := mem_of_suffix hw (List.mem_cons_self x w')
      exact mwcK3_cons_not_space (cap8_not_space x hx) _

/-- Opening of both conversion patterns against a literal
space + `src="`: the whitespace class stops exactly before `s`. -/
theorem open_block (K : List Char → Option α) (t : List Char) :
    plusB pySpace (litsM src5 K) (' ' :: (src5 ++ t)) = K t := by
  rw [plusB_cons, if_pos (by decide)]
  rw [show src5 ++ t = 's' :: (['r', 'c', '=', '\x22'] ++ t) from rfl]
  rw [starB_neg (by decide)]
  rw [show 's' :: (['r', 'c', '=', '\x22'] ++ t) = src5 ++ t from rfl]
  rw [litsM_append]

theorem nq_of_not_mem {x : Char} {l : List Char} (hl : '\x22' ∉ l) (hx : x ∈ l) :
    nq x = true := by
  have : x ≠ '\x22' := fun h => hl (h ▸ hx)
  simp [nq, this]

/-- `pattern_with_caption` matches a well-formed shortcode with quote-free
src and caption values, capturing exactly those values and consuming the
whole text. -/
theorem mwc_figWC {p c : List Char} (hp : p ≠ []) (hpq : '\x22' ∉ p)
    (hcq : '\x22' ∉ c) :
    matchWithCaption (figWC p c) = some ((p, c), []) := by
  unfold matchWithCaption figWC
  rw [litsM_append, open_block]
  refine capPlus_maximal hp (fun x hx => nq_of_not_mem hpq hx) (by decide) ?_
  unfold mwcAfterSrc
  rw [litM_cons, if_pos rfl]
  rw [starB_eq_self (mwcK3_proper_none hcq)]
  unfold mwcK3
  rw [clsM_pos (by decide), litsM_append, litM_cons, if_pos rfl]
  unfold mwcCapGroup
  refine capStar_maximal (fun x hx => nq_of_not_mem hcq hx) (by decide) ?_
  rfl

/-! ## Shortcodes without a usable src attribute -/

theorem subWith_full' {m : List Char → Option (ρ × List Char)}
    {f : ρ → List Char} {s : List Char} {r : ρ}
    (h : m s = some (r, [])) (hs : s ≠ []) : subWith m f s = f r := by
  cases s with
  | nil => cases hs rfl
  | cons a s => exact subWith_full h

/-- `pattern_no_src` consumes a whole shortcode whose body contains no
greater-than sign. -/
theorem mns_full (u xs : List Char) (hu : u = xs ++ close3)
    (hxs : ∀ x ∈ xs, x ≠ '>') :
    matchNoSrc (pre10 ++ u) = some ((), []) := by
  unfold matchNoSrc
  rw [litsM_append, hu, show close3 = '>' :: ['\x7d', '\x7d'] from rfl]
  refine starB_maximal (fun x hx => ?_) (by decide) rfl
  simp [ngt, hxs x hx]

theorem dropWhile_append_close (b : List Char) :
    List.dropWhile pySpace (b ++ close3) = List.dropWhile pySpace b ++ close3 := by
  induction b with
  | nil => rfl
  | cons a b ih =>
    by_cases ha : pySpace a
    · simp [List.dropWhile, ha, ih]
    · simp [List.dropWhile, ha]

/-- The `\s+` of the conversion patterns backtracks across leading
whitespace, but the following literal starts with `s`, which is not
whitespace: the literal `src="` can only be checked right after the
maximal whitespace run, so if it is not there the whole opening fails. -/
theorem starB_sp_src5_none (K : List Char → Option α) :
    ∀ {s : List Char}, src5.isPrefixOf (s.dropWhile pySpace) = false →
      starB pySpace (litsM src5 K) s = none := by
  intro s
  induction s with
  | nil => intro _; rfl
  | cons a s ih =>
    intro h
    by_cases ha : pySpace a
    · have hdrop : List.dropWhile pySpace (a :: s) = List.dropWhile pySpace s := by
        simp [List.dropWhile, ha]
      have hs : starB pySpace (litsM src5 K) s = none := ih (hdrop ▸ h)
      have hne : a ≠ 's' := by
        intro he
        subst he
        simp [pySpace] at ha
      have hk : litsM src5 K (a :: s) = none := by
        simp [src5, litsM, litM_cons, hne]
      simp [starB, ha, hs, hk]
    · have hdrop : List.dropWhile pySpace (a :: s) = a :: s := by
        simp [List.dropWhile, ha]
      rw [starB_neg (by simpa using ha)]
      exact litsM_none_of_not_pref (hdrop ▸ h) _

/-- Opening failure of both conversion patterns on a shortcode body that
does not continue with `src="` after the leading whitespace. -/
theorem plusB_src_none_body (G : List Char → Option α) {b : List Char}
    (H : src5.isPrefixOf (b.dropWhile pySpace ++ close3) = false) :
    plusB pySpace (litsM src5 G) (b ++ close3) = none := by
  cases b with
  | nil => rw [show ([] : List Char) ++ close3 = close3 from rfl]; rfl
  | cons x b' =>
    rw [List.cons_append, plusB_cons]
    by_cases hx : pySpace x
    · rw [if_pos hx]
      refine starB_sp_src5_none G ?_
      rw [dropWhile_append_close]
      have hdrop : List.dropWhile pySpace (x :: b') = List.dropWhile pySpace b' := by
        simp [List.dropWhile, hx]
      exact hdrop ▸ H
    · rw [if_neg hx]

theorem mwc_figNoSrc_none0 {b : List Char}
    (H : src5.isPrefixOf (b.dropWhile pySpace ++ close3) = false) :
    matchWithCaption (figNoSrc b) = none := by
  unfold matchWithCaption figNoSrc
  rw [litsM_append]
  exact plusB_src_none_body _ H

theorem mwo_figNoSrc_none0 {b : List Char}
    (H : src5.isPrefixOf (b.dropWhile pySpace ++ close3) = false) :
    matchWithoutCaption (figNoSrc b) = none := by
  unfold matchWithoutCaption figNoSrc
  rw [litsM_append]
  exact plusB_src_none_body _ H

theorem mwc_brace_lt_none (t : List Char) :
    matchWithCaption ('\x7b' :: '<' :: t) = none := by
  simp [matchWithCaption, pre10, litsM, litM_cons]

theorem mwo_brace_lt_none (t : List Char) :
    matchWithoutCaption ('\x7b' :: '<' :: t) = none := by
  simp [matchWithoutCaption, pre10, litsM, litM_cons]

theorem mns_brace_lt_none (t : List Char) :
    matchNoSrc ('\x7b' :: '<' :: t) = none := by
  simp [matchNoSrc, pre10, litsM, litM_cons]

/-- If a matcher needs a leading brace, fails on the two brace-led
suffixes of a text of the form `pre10 ++ u` with brace-free `u`, and
fails on the empty text, then `subWith` leaves the whole text alone. -/
theorem subWith_id_pre10 {m : List Char → Option (ρ × List Char)}
    {f : ρ → List Char}
    (hcons : ∀ (x : Char) (t : List Char), x ≠ '\x7b' → m (x :: t) = none)
    (hnil : m [] = none)
    (hlt : ∀ t, m ('\x7b' :: '<' :: t) = none)
    {u : List Char} (hu : '\x7b' ∉ u)
    (h1 : m (pre10 ++ u) = none) :
    subWith m f (pre10 ++ u) = pre10 ++ u := by
  refine subWith_id fun t ht => ?_
  have ht0 : t <:+ '\x7b' :: ('\x7b' :: '<' :: ' ' :: 'f' :: 'i' :: 'g' ::
      'u' :: 'r' :: 'e' :: u) := ht
  rcases suffix_cons_cases ht0 with rfl | ht1
  · exact h1
  rcases suffix_cons_cases ht1 with rfl | ht2
  · exact hlt _
  rcases suffix_cons_cases ht2 with rfl | ht3
  · exact hcons _ _ (by decide)
  rcases suffix_cons_cases ht3 with rfl | ht4
  · exact hcons _ _ (by decide)
  rcases suffix_cons_cases ht4 with rfl | ht5
  · exact hcons _ _ (by decide)
  rcases suffix_cons_cases ht5 with rfl | ht6
  · exact hcons _ _ (by decide)
  rcases suffix_cons_cases ht6 with rfl | ht7
  · exact hcons _ _ (by decide)
  rcases suffix_cons_cases ht7 with rfl | ht8
  · exact hcons _ _ (by decide)
  rcases suffix_cons_cases ht8 with rfl | ht9
  · exact hcons _ _ (by decide)
  rcases suffix_cons_cases ht9 with rfl | ht10
  · exact hcons _ _ (by decide)
  cases t with
  | nil => exact hnil
  | cons x t' =>
    refine hcons x t' fun hx => ?_
    exact hu (hx ▸ mem_of_suffix ht10 (List.mem_cons_self x t'))

theorem mwc_srcEmpty_none0 (c : List Char) :
    matchWithCaption (figSrcEmpty c) = none := by
  unfold matchWithCaption figSrcEmpty
  rw [litsM_append, open_block]
  exact capPlus_neg (by decide) _ _

theorem mwo_srcEmpty_none0 (c : List Char) :
    matchWithoutCaption (figSrcEmpty c) = none := by
  unfold matchWithoutCaption figSrcEmpty
  rw [litsM_append, open_block]
  exact capPlus_neg (by decide) _ _

theorem mwc_noSrcCap_none0 (c : List Char) :
    matchWithCaption (figNoSrcCap c) = none := by
  unfold matchWithCaption figNoSrcCap
  rw [litsM_append, plusB_cons, if_pos (by decide)]
  rw [show cap8 ++ ('\x22' :: (c ++ '\x22' :: ' ' :: close3)) =
        'c' :: (['a', 'p', 't', 'i', 'o', 'n', '='] ++
          ('\x22' :: (c ++ '\x22' :: ' ' :: close3))) from rfl]
  rw [starB_neg (by decide)]
  simp [src5, litsM, litM_cons]

theorem mwo_noSrcCap_none0 (c : List Char) :
    matchWithoutCaption (figNoSrcCap c) = none := by
  unfold matchWithoutCaption figNoSrcCap
  rw [litsM_append, plusB_cons, if_pos (by decide)]
  rw [show cap8 ++ ('\x22' :: (c ++ '\x22' :: ' ' :: close3)) =
        'c' :: (['a', 'p', 't', 'i', 'o', 'n', '='] ++
          ('\x22' :: (c ++ '\x22' :: ' ' :: close3))) from rfl]
  rw [starB_neg (by decide)]
  simp [src5, litsM, litM_cons]

theorem mns_srcEmpty {c : List Char} (hgt : '>' ∉ c) :
    matchNoSrc (pre10 ++ (' ' :: (src5 ++ ('\x22' :: ' ' ::
      (cap8 ++ ('\x22' :: (c ++ '\x22' :: ' ' :: close3))))))) = some ((), []) := by
  refine mns_full _ (' ' :: (src5 ++ ('\x22' :: ' ' ::
    (cap8 ++ ('\x22' :: (c ++ ['\x22', ' '])))))) ?_ ?_
  · simp [List.append_assoc]
  · intro x hx he
    subst he
    simp [src5, cap8, List.mem_append, List.mem_cons] at hx
    exact hgt hx

theorem mns_noSrcCap {c : List Char} (hgt : '>' ∉ c) :
    matchNoSrc (pre10 ++ (' ' ::
      (cap8 ++ ('\x22' :: (c ++ '\x22' :: ' ' :: close3))))) = some ((), []) := by
  refine mns_full _ (' ' :: (cap8 ++ ('\x22' :: (c ++ ['\x22', ' '])))) ?_ ?_
  · simp [List.append_assoc]
  · intro x hx he
    subst he
    simp [cap8, List.mem_append, List.mem_cons] at hx
    exact hgt hx

/-! ## End-to-end conversion of each input family -/

theorem brace_not_mem_rewriteSrc {p : List Char} (hpb : '\x7b' ∉ p) :
    '\x7b' ∉ rewriteSrc p := by
  unfold rewriteSrc
  split
  · intro hm
    rcases List.mem_append.mp hm with h | h
    · simp at h
    · exact hpb h
  · exact hpb

theorem replace_with_caption_braceFree {p c : List Char} (hpb : '\x7b' ∉ p)
    (hcb : '\x7b' ∉ c) : '\x7b' ∉ replace_with_caption p c := by
  have hrw := brace_not_mem_rewriteSrc hpb
  intro hm
  unfold replace_with_caption at hm
  simp at hm
  rcases hm with h | h
  · exact hcb h
  · exact hrw h

/-- Full conversion of a well-formed src + caption shortcode: one
`pattern_with_caption` replacement, then the other two passes find no
brace to start from. -/
theorem convert_figWC {p c : List Char} (hp : p ≠ []) (hpq : '\x22' ∉ p)
    (hpb : '\x7b' ∉ p) (hcq : '\x22' ∉ c) (hcb : '\x7b' ∉ c) :
    convert_figure_shortcode (figWC p c) = replace_with_caption p c := by
  have himg : '\x7b' ∉ replace_with_caption p c :=
    replace_with_caption_braceFree hpb hcb
  unfold convert_figure_shortcode
  rw [subWith_full' (mwc_figWC hp hpq hcq) (by simp [figWC, pre10])]
  rw [subWith_id fun t ht => mwo_none_of_no_brace fun hm => himg (mem_of_suffix ht hm)]
  rw [subWith_id fun t ht => mns_none_of_no_brace fun hm => himg (mem_of_suffix ht hm)]

/-- Full conversion of a shortcode with no (or unusable) src attribute
and a body free of `>`: the two conversion patterns never fire, and
`pattern_no_src` deletes the whole shortcode. -/
theorem convert_figNoSrc {b : List Char} (hgt : '>' ∉ b) (hbr : '\x7b' ∉ b)
    (H : src5.isPrefixOf (b.dropWhile pySpace ++ close3) = false) :
    convert_figure_shortcode (figNoSrc b) = [] := by
  have hu : '\x7b' ∉ b ++ close3 := by
    intro hm
    rcases List.mem_append.mp hm with h | h
    · exact hbr h
    · simp [close3] at h
  unfold convert_figure_shortcode figNoSrc
  rw [subWith_id_pre10 (fun x t hx => mwc_cons_ne hx t) mwc_nil
    mwc_brace_lt_none hu (mwc_figNoSrc_none0 H)]
  rw [subWith_id_pre10 (fun x t hx => mwo_cons_ne hx t) mwo_nil
    mwo_brace_lt_none hu (mwo_figNoSrc_none0 H)]
  rw [subWith_full' (mns_full _ b rfl fun x hx he => hgt (he ▸ hx)) (by simp [pre10])]

/-- Full conversion of a shortcode whose src attribute is empty: the
conversion patterns fail on the empty `[^"]+` group, and the shortcode
is deleted by `pattern_no_src`. -/
theorem convert_figSrcEmpty {c : List Char} (hgt : '>' ∉ c) (hbr : '\x7b' ∉ c) :
    convert_figure_shortcode (figSrcEmpty c) = [] := by
  have hu : '\x7b' ∉ ' ' :: (src5 ++ ('\x22' :: ' ' ::
      (cap8 ++ ('\x22' :: (c ++ '\x22' :: ' ' :: close3))))) := by
    intro hm
    simp [src5, cap8, close3, List.mem_append, List.mem_cons] at hm
    exact hbr hm
  unfold convert_figure_shortcode
  rw [show figSrcEmpty c = pre10 ++ (' ' :: (src5 ++ ('\x22' :: ' ' ::
    (cap8 ++ ('\x22' :: (c ++ '\x22' :: ' ' :: close3)))))) from rfl]
  rw [subWith_id_pre10 (fun x t hx => mwc_cons_ne hx t) mwc_nil
    mwc_brace_lt_none hu (mwc_srcEmpty_none0 c)]
  rw [subWith_id_pre10 (fun x t hx => mwo_cons_ne hx t) mwo_nil
    mwo_brace_lt_none hu (mwo_srcEmpty_none0 c)]
  rw [subWith_full' (mns_srcEmpty hgt) (by simp [figSrcEmpty, pre10])]

/-- Full conversion of a shortcode with only a caption attribute: the
conversion patterns fail (no `src="` after the whitespace), and the
shortcode is deleted by `pattern_no_src`. -/
theorem convert_figNoSrcCap {c : List Char} (hgt : '>' ∉ c) (hbr : '\x7b' ∉ c) :
    convert_figure_shortcode (figNoSrcCap c) = [] := by
  have hu : '\x7b' ∉ ' ' :: (cap8 ++ ('\x22' :: (c ++ '\x22' :: ' ' :: close3))) := by
    intro hm
    simp [cap8, close3, List.mem_append, List.mem_cons] at hm
    exact hbr hm
  unfold convert_figure_shortcode
  rw [show figNoSrcCap c = pre10 ++ (' ' ::
    (cap8 ++ ('\x22' :: (c ++ '\x22' :: ' ' :: close3)))) from rfl]
  rw [subWith_id_pre10 (fun x t hx => mwc_cons_ne hx t) mwc_nil
    mwc_brace_lt_none hu (mwc_noSrcCap_none0 c)]
  rw [subWith_id_pre10 (fun x t hx => mwo_cons_ne hx t) mwo_nil
    mwo_brace_lt_none hu (mwo_noSrcCap_none0 c)]
  rw [subWith_full' (mns_noSrcCap hgt) (by simp [figNoSrcCap, pre10])]

theorem mwc_capFirst_none0 (c p : List Char) :
    matchWithCaption (figCapFirst c p) = none := by
  unfold matchWithCaption figCapFirst
  rw [litsM_append, plusB_cons, if_pos (by decide)]
  rw [show cap8 ++ ('\x22' :: (c ++ '\x22' :: ' ' ::
        (src5 ++ (p ++ '\x22' :: ' ' :: close3)))) =
      'c' :: (['a', 'p', 't', 'i', 'o', 'n', '='] ++
        ('\x22' :: (c ++ '\x22' :: ' ' ::
          (src5 ++ (p ++ '\x22' :: ' ' :: close3))))) from rfl]
  rw [starB_neg (by decide)]
  simp [src5, litsM, litM_cons]

theorem mwo_capFirst_none0 (c p : List Char) :
    matchWithoutCaption (figCapFirst c p) = none := by
  unfold matchWithoutCaption figCapFirst
  rw [litsM_append, plusB_cons, if_pos (by decide)]
  rw [show cap8 ++ ('\x22' :: (c ++ '\x22' :: ' ' ::
        (src5 ++ (p ++ '\x22' :: ' ' :: close3)))) =
      'c' :: (['a', 'p', 't', 'i', 'o', 'n', '='] ++
        ('\x22' :: (c ++ '\x22' :: ' ' ::
          (src5 ++ (p ++ '\x22' :: ' ' :: close3))))) from rfl]
  rw [starB_neg (by decide)]
  simp [src5, litsM, litM_cons]

theorem mns_capFirst {c p : List Char} (hgtc : '>' ∉ c) (hgtp : '>' ∉ p) :
    matchNoSrc (pre10 ++ (' ' :: (cap8 ++ ('\x22' :: (c ++ '\x22' :: ' ' ::
      (src5 ++ (p ++ '\x22' :: ' ' :: close3))))))) = some ((), []) := by
  refine mns_full _ (' ' :: (cap8 ++ ('\x22' :: (c ++ '\x22' :: ' ' ::
    (src5 ++ (p ++ ['\x22', ' '])))))) ?_ ?_
  · simp [List.append_assoc]
  · intro x hx he
    subst he
    simp [src5, cap8, List.mem_append, List.mem_cons] at hx
    rcases hx with h | h
    · exact hgtc h
    · exact hgtp h

/-- Full conversion of a caption-first shortcode: because both
conversion patterns demand `src="` immediately after `figure` and its
whitespace, neither fires, and `pattern_no_src` deletes everything. -/
theorem convert_figCapFirst {c p : List Char} (hgtc : '>' ∉ c)
    (hgtp : '>' ∉ p) (hbrc : '\x7b' ∉ c) (hbrp : '\x7b' ∉ p) :
    convert_figure_shortcode (figCapFirst c p) = [] := by
  have hu : '\x7b' ∉ ' ' :: (cap8 ++ ('\x22' :: (c ++ '\x22' :: ' ' ::
      (src5 ++ (p ++ '\x22' :: ' ' :: close3))))) := by
    intro hm
    simp [src5, cap8, close3, List.mem_append, List.mem_cons] at hm
    rcases hm with h | h
    · exact hbrc h
    · exact hbrp h
  unfold convert_figure_shortcode
  rw [show figCapFirst c p = pre10 ++ (' ' :: (cap8 ++ ('\x22' :: (c ++
    '\x22' :: ' ' :: (src5 ++ (p ++ '\x22' :: ' ' :: close3)))))) from rfl]
  rw [subWith_id_pre10 (fun x t hx => mwc_cons_ne hx t) mwc_nil
    mwc_brace_lt_none hu (mwc_capFirst_none0 c p)]
  rw [subWith_id_pre10 (fun x t hx => mwo_cons_ne hx t) mwo_nil
    mwo_brace_lt_none hu (mwo_capFirst_none0 c p)]
  rw [subWith_full' (mns_capFirst hgtc hgtp) (by simp [figCapFirst, pre10])]

/-- A pre-existing Markdown image is untouched: no pattern can match a
text without braces. -/
theorem convert_imageMd {alt path : List Char} (ha : '\x7b' ∉ alt)
    (hp : '\x7b' ∉ path) :
    convert_figure_shortcode (imageMd alt path) = imageMd alt path := by
  refine convert_braceFree ?_
  intro hm
  unfold imageMd at hm
  simp at hm
  rcases hm with h | h
  · exact ha h
  · exact hp h

/-- The conversion of a well-formed slash-rooted shortcode, written out:
`![` caption `](static` src `)`. -/
theorem convert_figWC_slash {p c : List Char} (hp : p.head? = some '/')
    (hpq : '\x22' ∉ p) (hpb : '\x7b' ∉ p) (hcq : '\x22' ∉ c) (hcb : '\x7b' ∉ c) :
    convert_figure_shortcode (figWC p c) =
      "![".data ++ c ++ "](static".data ++ p ++ ")".data := by
  have hpne : p ≠ [] := by
    intro he
    subst he
    simp at hp
  rw [convert_figWC hpne hpq hpb hcq hcb]
  unfold replace_with_caption rewriteSrc
  rw [if_pos hp]
  rw [show ("![".data : List Char) = ['!', '['] from rfl,
    show ("](static".data : List Char) =
      [']', '(', 's', 't', 'a', 't', 'i', 'c'] from rfl,
    show (")".data : List Char) = [')'] from rfl]
  simp [List.append_assoc]

/-! ## Claim theorems -/

/-- Claim C1, amended: for every figure shortcode of the form
`src="p" caption="c"` where `p` begins with `/` and neither value
contains a double quote or an opening brace (an embedded shortcode
fragment in a value would be re-matched and deleted by the later
passes), the rewriter replaces it with `![c](static p)`; in
particular `src="/a/b.png" caption="C"` produces exactly
`![C](static/a/b.png)`. -/
theorem c1_figure_caption_rewrite :
    (∀ p c : List Char, p.head? = some '/' → '\x22' ∉ p → '\x7b' ∉ p →
      '\x22' ∉ c → '\x7b' ∉ c →
      convert_figure_shortcode (figWC p c) =
        "![".data ++ c ++ "](static".data ++ p ++ ")".data) ∧
    convertStr "\x7b\x7b< figure src=\"/a/b.png\" caption=\"C\" >\x7d\x7d" =
      "![C](static/a/b.png)" :=
  ⟨fun _ _ hp hpq hpb hcq hcb => convert_figWC_slash hp hpq hpb hcq hcb, rfl⟩

/-- Witness for C1 at `p = /a/b.png`, `c = C`. -/
theorem c1_figure_caption_rewrite_witness :
    convert_figure_shortcode (figWC "/a/b.png".data "C".data) =
      "![".data ++ "C".data ++ "](static".data ++ "/a/b.png".data ++ ")".data :=
  c1_figure_caption_rewrite.1 "/a/b.png".data "C".data (by decide) (by decide)
    (by decide) (by decide) (by decide)

/-- Claim C1 as stated is false: a caption that itself contains figure
shortcode text is deleted from the alt span by the no-src pass, so the
output is not `![c](static p)`. -/
theorem c1_embedded_shortcode_counterexample :
    convertStr
        "\x7b\x7b< figure src=\"/a/b.png\" caption=\"\x7b\x7b< figure >\x7d\x7d\" >\x7d\x7d" =
      "![](static/a/b.png)" ∧
    convertStr
        "\x7b\x7b< figure src=\"/a/b.png\" caption=\"\x7b\x7b< figure >\x7d\x7d\" >\x7d\x7d" ≠
      "![\x7b\x7b< figure >\x7d\x7d](static/a/b.png)" :=
  ⟨rfl, by decide⟩

/-- Claim C2, amended: a pre-existing Markdown image reference is left
unchanged by the transformation — the script has no absolute-path
normalization pass, so `![x](/foo/bar.png)` stays exactly as it is. -/
theorem c2_preexisting_image_unchanged :
    ∀ alt path : List Char, '\x7b' ∉ alt → '\x7b' ∉ path →
      convert_figure_shortcode (imageMd alt path) = imageMd alt path :=
  fun _ _ ha hp => convert_imageMd ha hp

/-- Witness for C2 at `alt = x`, `path = /foo/bar.png`. -/
theorem c2_preexisting_image_unchanged_witness :
    convert_figure_shortcode (imageMd "x".data "/foo/bar.png".data) =
      imageMd "x".data "/foo/bar.png".data :=
  c2_preexisting_image_unchanged "x".data "/foo/bar.png".data (by decide)
    (by decide)

/-- Claim C2 as stated is false: `![x](/foo/bar.png)` is not rewritten
to `![x](static/foo/bar.png)`; it comes out unchanged. -/
theorem c2_no_normalization_counterexample :
    convertStr "![x](/foo/bar.png)" = "![x](/foo/bar.png)" ∧
    convertStr "![x](/foo/bar.png)" ≠ "![x](static/foo/bar.png)" :=
  ⟨rfl, by decide⟩

/-- Claim C3: the code disagrees with it — a shortcode with src but no
caption is replaced by `[](static/a.png)` (an empty link, the f-string
on line 52 has no `!`), not by the image `![](static/a.png)` the spec
adopts as canonical. -/
theorem c3_captionless_output_lacks_bang :
    convertStr "\x7b\x7b< figure src=\"/a.png\" >\x7d\x7d" = "[](static/a.png)" ∧
    convertStr "\x7b\x7b< figure src=\"/a.png\" >\x7d\x7d" ≠ "![](static/a.png)" :=
  ⟨rfl, by decide⟩

/-- Claim C4, amended: attribute order does matter — both conversion
patterns require `src` to be the attribute immediately after `figure`,
so a src-first shortcode converts while the caption-first permutation
of the same attributes matches neither conversion pattern and is
deleted by the no-src pattern. -/
theorem c4_attribute_order_matters :
    ∀ p c : List Char, p.head? = some '/' → '\x22' ∉ p → '\x7b' ∉ p →
      '>' ∉ p → '\x22' ∉ c → '\x7b' ∉ c → '>' ∉ c →
      convert_figure_shortcode (figWC p c) =
        "![".data ++ c ++ "](static".data ++ p ++ ")".data ∧
      convert_figure_shortcode (figCapFirst c p) = [] := by
  intro p c hp hpq hpb hpg hcq hcb hcg
  exact ⟨convert_figWC_slash hp hpq hpb hcq hcb,
    convert_figCapFirst hcg hpg hcb hpb⟩

/-- Witness for C4 at `p = /p.png`, `c = C`. -/
theorem c4_attribute_order_matters_witness :
    convert_figure_shortcode (figWC "/p.png".data "C".data) =
      "![".data ++ "C".data ++ "](static".data ++ "/p.png".data ++ ")".data ∧
    convert_figure_shortcode (figCapFirst "C".data "/p.png".data) = [] :=
  c4_attribute_order_matters "/p.png".data "C".data (by decide) (by decide)
    (by decide) (by decide) (by decide) (by decide) (by decide)

/-- Claim C4 as stated is false: permuting `caption` before `src`
changes the output (the shortcode is deleted instead of converted). -/
theorem c4_order_counterexample :
    convertStr "\x7b\x7b< figure caption=\"C\" src=\"/p.png\" >\x7d\x7d" ≠
    convertStr "\x7b\x7b< figure src=\"/p.png\" caption=\"C\" >\x7d\x7d" := by
  decide

/-- Claim C5, amended: the chosen alt text is inserted verbatim — the
code performs no escaping at all, so a caption containing `]` appears
unescaped in the output and the produced span is `![a]b](...)`. -/
theorem c5_caption_inserted_verbatim :
    ∀ p c : List Char, ']' ∈ c → p.head? = some '/' → '\x22' ∉ p →
      '\x7b' ∉ p → '\x22' ∉ c → '\x7b' ∉ c →
      convert_figure_shortcode (figWC p c) =
        "![".data ++ c ++ "](static".data ++ p ++ ")".data :=
  fun _ _ _ hp hpq hpb hcq hcb => convert_figWC_slash hp hpq hpb hcq hcb

/-- Witness for C5 at `p = /p`, `c = a]b`. -/
theorem c5_caption_inserted_verbatim_witness :
    convert_figure_shortcode (figWC "/p".data "a]b".data) =
      "![".data ++ "a]b".data ++ "](static".data ++ "/p".data ++ ")".data :=
  c5_caption_inserted_verbatim "/p".data "a]b".data (by decide) (by decide)
    (by decide) (by decide) (by decide) (by decide)

/-- Claim C5 as stated is false: the `]` in caption `a]b` is not
emitted as backslash-`]`; the output is the unescaped `![a]b](static/p)`. -/
theorem c5_escape_counterexample :
    convertStr "\x7b\x7b< figure src=\"/p\" caption=\"a]b\" >\x7d\x7d" =
      "![a]b](static/p)" ∧
    convertStr "\x7b\x7b< figure src=\"/p\" caption=\"a]b\" >\x7d\x7d" ≠
      "![a\\]b](static/p)" :=
  ⟨rfl, by decide⟩

/-- Claim C6, amended: a figure shortcode with no src attribute is
replaced by the empty string provided its body contains no `>` (the
removal pattern's `[^>]*` cannot cross one), no brace, and does not
itself begin with `src="`; multi-line bodies are covered. -/
theorem c6_no_src_deleted :
    ∀ b : List Char, '>' ∉ b → '\x7b' ∉ b →
      src5.isPrefixOf (b.dropWhile pySpace ++ close3) = false →
      convert_figure_shortcode (figNoSrc b) = [] :=
  fun _ h1 h2 h3 => convert_figNoSrc h1 h2 h3

/-- Witness for C6 on a multi-line attribute body. -/
theorem c6_no_src_deleted_witness :
    convert_figure_shortcode (figNoSrc " class=\"x\"\n width=300 ".data) = [] :=
  c6_no_src_deleted " class=\"x\"\n width=300 ".data (by decide) (by decide)
    (by decide)

/-- Claim C6 as stated is false: a no-src shortcode whose attribute
value contains `>` is not removed at all — it comes out unchanged. -/
theorem c6_gt_in_value_counterexample :
    convertStr "\x7b\x7b< figure class=\"a>b\" >\x7d\x7d" =
      "\x7b\x7b< figure class=\"a>b\" >\x7d\x7d" ∧
    convertStr "\x7b\x7b< figure class=\"a>b\" >\x7d\x7d" ≠ "" :=
  ⟨rfl, by decide⟩

/-- Claim C7, amended: double application is stable on the output of a
simple (non-overlapping) shortcode — the emitted `![c](static p)` text
contains no brace, so a second run leaves it unchanged.  Full
double-application idempotence fails when the left-to-right scan leaves
a residual shortcode fragment (see the counterexample). -/
theorem c7_double_application_stable :
    ∀ p c : List Char, p ≠ [] → '\x22' ∉ p → '\x7b' ∉ p → '\x22' ∉ c →
      '\x7b' ∉ c →
      convert_figure_shortcode (convert_figure_shortcode (figWC p c)) =
        convert_figure_shortcode (figWC p c) := by
  intro p c hp hpq hpb hcq hcb
  rw [convert_figWC hp hpq hpb hcq hcb]
  exact convert_braceFree (replace_with_caption_braceFree hpb hcb)

/-- Witness for C7 at `p = /p`, `c = c`. -/
theorem c7_double_application_stable_witness :
    convert_figure_shortcode (convert_figure_shortcode
      (figWC "/p".data "c".data)) =
    convert_figure_shortcode (figWC "/p".data "c".data) :=
  c7_double_application_stable "/p".data "c".data (by decide) (by decide)
    (by decide) (by decide) (by decide)

/-- Claim C7 as stated is false: on this input the first application
rewrites the inner shortcode to `![c](static/p)` but leaves an outer
`figure` fragment (the scan consumed its closing braces); the second
application then deletes the whole remainder, destroying the
`static/p` path the first application wrote. -/
theorem c7_residual_shortcode_counterexample :
    convertStr
        "\x7b\x7b< fig\x7b\x7b< figure w >\x7d\x7dure \x7b\x7b< figure src=\"/p\" caption=\"c\" >\x7d\x7d >\x7d\x7d" =
      "\x7b\x7b< figure ![c](static/p) >\x7d\x7d" ∧
    convertStr "\x7b\x7b< figure ![c](static/p) >\x7d\x7d" = "" ∧
    ("" : String) ≠ "\x7b\x7b< figure ![c](static/p) >\x7d\x7d" :=
  ⟨rfl, rfl, by decide⟩

/-- Claim C8, amended: with fewer than two argv entries `main` prints
the usage text and exits 1; but in directory mode with the output
directory argument missing it terminates through an uncaught
`IndexError` (non-zero exit) without printing the usage message. -/
theorem c8_argument_errors :
    ∀ (argv : List String) (isFile isDir : String → Bool),
      (argv.length < 2 →
        pyMain argv isFile isDir = MainResult.usageError ∧
        printsUsage (pyMain argv isFile isDir) = true ∧
        exitStatus (pyMain argv isFile isDir) = some 1) ∧
      (∀ prog d, argv = [prog, d] → isFile d = false → isDir d = true →
        pyMain argv isFile isDir = MainResult.uncaughtIndexError ∧
        printsUsage (pyMain argv isFile isDir) = false ∧
        exitStatus (pyMain argv isFile isDir) = some 1) := by
  intro argv isFile isDir
  constructor
  · intro hlen
    cases argv with
    | nil => exact ⟨rfl, rfl, rfl⟩
    | cons a t =>
      cases t with
      | nil => exact ⟨rfl, rfl, rfl⟩
      | cons b t' =>
        simp only [List.length_cons] at hlen
        omega
  · intro prog d heq hf hd
    subst heq
    simp [pyMain, hf, hd, printsUsage, exitStatus]

/-- Witness for C8: one-argument call gives the usage error;
directory-mode call without an output directory gives the IndexError. -/
theorem c8_argument_errors_witness :
    pyMain ["preprocess.py"] (fun _ => false) (fun _ => false) =
      MainResult.usageError ∧
    pyMain ["preprocess.py", "docs"] (fun _ => false) (fun _ => true) =
      MainResult.uncaughtIndexError :=
  ⟨((c8_argument_errors ["preprocess.py"] (fun _ => false)
      (fun _ => false)).1 (by decide)).1,
   ((c8_argument_errors ["preprocess.py", "docs"] (fun _ => false)
      (fun _ => true)).2 "preprocess.py" "docs" rfl rfl rfl).1⟩

/-- Claim C8 as stated is false: invoking on a directory without an
output argument is insufficient arguments, yet the usage message is not
printed — the run dies on `sys.argv[2]` with an IndexError. -/
theorem c8_missing_outdir_counterexample :
    pyMain ["preprocess.py", "book"] (fun _ => false) (fun _ => true) =
      MainResult.uncaughtIndexError ∧
    printsUsage MainResult.uncaughtIndexError = false :=
  ⟨rfl, rfl⟩

/-- Claim C9: the code disagrees with it — for a bare output filename
`os.path.dirname` returns the empty string and `os.makedirs('')`
raises FileNotFoundError even with `exist_ok=True`, so `process_file`
fails; with a directory component it succeeds. -/
theorem c9_bare_output_path_crashes :
    dirname "out.md".data = [] ∧
    process_file "x".data "out.md".data = Except.error PyErr.fileNotFound ∧
    process_file "x".data "build/out.md".data = Except.ok "x".data :=
  ⟨rfl, rfl, rfl⟩

/-- Claim C10: a shortcode with `src=""` matches neither conversion
pattern (their `[^"]+` group needs at least one character) and is
deleted whole by the no-src pattern, exactly like a shortcode with no
src attribute at all. -/
theorem c10_empty_src_deleted :
    ∀ c : List Char, '>' ∉ c → '\x7b' ∉ c →
      matchWithCaption (figSrcEmpty c) = none ∧
      matchWithoutCaption (figSrcEmpty c) = none ∧
      convert_figure_shortcode (figSrcEmpty c) = [] ∧
      convert_figure_shortcode (figNoSrcCap c) = [] :=
  fun c hg hb => ⟨mwc_srcEmpty_none0 c, mwo_srcEmpty_none0 c,
    convert_figSrcEmpty hg hb, convert_figNoSrcCap hg hb⟩

/-- Witness for C10 at caption `Fig 1`. -/
theorem c10_empty_src_deleted_witness :
    matchWithCaption (figSrcEmpty "Fig 1".data) = none ∧
    matchWithoutCaption (figSrcEmpty "Fig 1".data) = none ∧
    convert_figure_shortcode (figSrcEmpty "Fig 1".data) = [] ∧
    convert_figure_shortcode (figNoSrcCap "Fig 1".data) = [] :=
  c10_empty_src_deleted "Fig 1".data (by decide) (by decide)

end PreprocessEpub
